import Mathlib

/-!
Verification of the TermTrack geospatial viewport and rendering engine
(`src/ui/map/map.go`, merge logic from the main-model iterations).

Shallow embedding conventions:
* Go `float64` values are modelled as exact rationals (`ℚ`); every arithmetic
  operation appearing in the source (`+`, `-`, `*`, `/`, comparisons) is mapped
  to the corresponding exact operation.  The Go conversion `int(f)` truncates
  toward zero; it is modelled by `trunc` below.
* The Go `Model` struct is embedded field by field.  Methods with pointer
  receivers that mutate the model (`project`'s epsilon nudge, `zoom`, `pan`,
  `SetViewToLocation`, `renderMapViewport`'s cache update) are embedded as
  state-passing functions returning the updated model.
* Display cells are styled strings in Go (`mapStyle.Render(".")`, `" "`, the
  zero value `""`, …); the finitely many distinct strings the renderer writes
  are embedded as the inductive type `Cell`.
* The Go map `map[string]*sbs.Aircraft` is embedded as a list of its entries;
  a Go `range` over the map corresponds to folding over some enumeration of
  that list, so order-dependence questions become questions about permuted
  lists.
-/

namespace TermTrack

/-- Truncation toward zero: the semantics of Go's `int(...)` conversion
applied to a `float64`.  For a rational in lowest terms this is the
T-division of numerator by denominator. -/
def trunc (q : ℚ) : ℤ := q.num.tdiv q.den

/-- Geographic rectangle, mirroring `shp.Box`. -/
structure Box where
  MinX : ℚ
  MinY : ℚ
  MaxX : ℚ
  MaxY : ℚ
deriving DecidableEq, Repr

/-- Width of a box. -/
def boxW (b : Box) : ℚ := b.MaxX - b.MinX

/-- Height of a box. -/
def boxH (b : Box) : ℚ := b.MaxY - b.MinY

/-- The `1e-6` epsilon used by `project`'s degenerate-bounds fix. -/
def eps : ℚ := 1 / 1000000

/-- The first degenerate-axis check at the top of `project`
(map.go lines 233–235): `if m.viewBounds.MaxX == m.viewBounds.MinX {
m.viewBounds.MaxX += 1e-6 }`. -/
def nudgeX (b : Box) : Box :=
  if b.MaxX = b.MinX then { b with MaxX := b.MaxX + eps } else b

/-- The second degenerate-axis check (map.go lines 236–238), applied to
the possibly already X-nudged bounds. -/
def nudgeY (b : Box) : Box :=
  if b.MaxY = b.MinY then { b with MaxY := b.MaxY + eps } else b

/-- Both checks in source order.  In Go they mutate `m.viewBounds`
through the pointer receiver; here the nudged box is returned. -/
def nudge (b : Box) : Box := nudgeY (nudgeX b)

/-- The fixed character-aspect constant `charAspect = 1.9`. -/
def charAspect : ℚ := 19 / 10

/-- The function `project` from `src/ui/map/map.go` (lines 232–253): converts lon/lat to
terminal x/y coordinates.  Returns the (possibly nudged) view bounds
together with `(tuiX, tuiY)`. -/
def projectPt (b : Box) (lon lat : ℚ) (W H : ℕ) : Box × ℤ × ℤ :=
  let b' := nudge b
  let x := (lon - b'.MinX) / (b'.MaxX - b'.MinX)
  let y := (b'.MaxY - lat) / (b'.MaxY - b'.MinY)
  (b', trunc (x * (W : ℚ) / charAspect), trunc (y * (H : ℚ)))

/-- Display cell: the finitely many distinct strings the renderer writes
into the grid.  `empty` is Go's zero value `""` (only produced by the
failsafe branch and `copyGrid` padding); `blank` is `" "`. -/
inductive Cell where
  | empty : Cell
  | blank : Cell
  | dot : Cell
  | star : Cell
  | plane : Cell
  | label (c : Char) : Cell
deriving DecidableEq, Repr

/-- Render grid, row-major, `(0,0)` top-left, mirroring `[][]string`. -/
abbrev Grid := List (List Cell)

/-- The all-blank `viewHeight × viewWidth` grid allocated at the start of a
static-layer rebuild (map.go lines 297–303). -/
def blankGrid (H W : ℕ) : Grid := List.replicate H (List.replicate W Cell.blank)

/-- Write `grid[r][c] = v`; out-of-range writes are no-ops (all writes in the
source are guarded to be in range). -/
def setCell : Grid → ℕ → ℕ → Cell → Grid
  | [], _, _, _ => []
  | row :: rest, 0, c, v => row.set c v :: rest
  | row :: rest, r + 1, c, v => row :: setCell rest r c v

/-- Read `grid[r][c]`, defaulting to `empty` out of range. -/
def getCell (g : Grid) (r c : ℕ) : Cell := (g.getD r []).getD c Cell.empty

/-- One destination row of `copyGrid`: `make([]string, w)` (all `""`)
followed by `copy(dest, src)`. -/
def copyRow (w : ℕ) (row : List Cell) : List Cell :=
  (row ++ List.replicate w Cell.empty).take w

/-- The function `copyGrid` from `src/ui/map/map.go` (lines 256–276), including the
`nil`, zero-height and zero-width special cases. -/
def copyGrid : Option Grid → Option Grid
  | none => none
  | some [] => some []
  | some (row :: rest) =>
      let w := row.length
      if w = 0 then some (List.replicate (row :: rest).length [])
      else some ((row :: rest).map (copyRow w))

/-- A shapefile vertex, mirroring `shp.Point`. -/
structure Point where
  X : ℚ
  Y : ℚ
deriving DecidableEq, Repr

/-- A shapefile polygon: vertex list plus its precomputed bounding box
(`polygon.BBox()`). -/
structure Polygon where
  Points : List Point
  BBox : Box
deriving DecidableEq, Repr

/-- The `for i := 0; i < len(points); i += 3` subsampling of polygon
vertices (map.go lines 315–317, `step = 3`): indices 0, 3, 6, …. -/
def stepPoints : List Point → List Point
  | [] => []
  | p :: rest => p :: stepPoints (rest.drop 2)
  termination_by l => l.length
  decreasing_by simp [List.length_drop]; omega

/-- Aircraft state, mirroring `sbs.Aircraft` (timestamps as abstract ticks). -/
structure Aircraft where
  ICAO : String
  Callsign : String
  Lat : ℚ
  Lon : ℚ
  Speed : ℚ
  Track : ℚ
  LastSeen : ℕ
deriving DecidableEq, Repr

/-- The map model, mirroring `mapview.Model`. -/
structure Model where
  width : ℤ
  height : ℤ
  mapPolygons : List Polygon
  airportPoints : List Point
  aircraft : List Aircraft
  originalBounds : Box
  viewBounds : Box
  cachedStaticGrid : Option Grid
  needsRedraw : Bool
deriving DecidableEq, Repr

/-- Project a sequence of vertices, writing glyph `v` at each in-bounds
cell, threading the (nudgeable) view bounds through the `project` calls.
Used for polygon vertices (`.` glyph) and airports (`*` glyph). -/
def drawPts (W H : ℕ) (v : Cell) : Box × Grid → List Point → Box × Grid
  | bg, [] => bg
  | (b, g), p :: ps =>
      let r := projectPt b p.X p.Y W H
      let g' := if 0 ≤ r.2.1 ∧ r.2.1 < (W : ℤ) ∧ 0 ≤ r.2.2 ∧ r.2.2 < (H : ℤ)
        then setCell g r.2.2.toNat r.2.1.toNat v else g
      drawPts W H v (r.1, g') ps

/-- The polygon bounding-box cull test (map.go lines 307–313): reject when
the polygon's box misses the current view bounds. -/
def cull (b : Box) (pb : Box) : Bool :=
  pb.MaxX < b.MinX || pb.MinX > b.MaxX || pb.MaxY < b.MinY || pb.MinY > b.MaxY

/-- Draw all polygons into the grid (map.go lines 306–323). -/
def drawPolygons (W H : ℕ) : Box × Grid → List Polygon → Box × Grid
  | bg, [] => bg
  | (b, g), poly :: rest =>
      let bg' := if cull b poly.BBox then (b, g)
        else drawPts W H Cell.dot (b, g) (stepPoints poly.Points)
      drawPolygons W H bg' rest

/-- Rebuild of the static layer (map.go lines 295–334): blank grid, then
polygons, then airports (airports overwrite polygon glyphs). -/
def buildStatic (b : Box) (polys : List Polygon) (airports : List Point)
    (W H : ℕ) : Box × Grid :=
  drawPts W H Cell.star (drawPolygons W H (b, blankGrid H W) polys) airports

/-- The cache-invalidation test of map.go line 295:
`m.needsRedraw || m.cachedStaticGrid == nil || len(m.cachedStaticGrid) != viewHeight || len(m.cachedStaticGrid[0]) != viewWidth`. -/
def rebuildCond (m : Model) (W H : ℕ) : Bool :=
  m.needsRedraw ||
    match m.cachedStaticGrid with
    | none => true
    | some g => g.length != H || (g.headD []).length != W

/-- The non-positive-dimension clamp at the top of `renderMapViewport`. -/
def clampDim (n : ℤ) : ℕ := if n ≤ 0 then 1 else n.toNat

/-- Icon pass (map.go lines 347–363): skip aircraft with the `(0,0)`
no-fix sentinel, project the rest, draw the plane glyph at in-bounds cells
and record `(icao, col, row)`. -/
def iconPass (W H : ℕ) :
    Box × Grid × List (String × ℕ × ℕ) → List Aircraft →
      Box × Grid × List (String × ℕ × ℕ)
  | s, [] => s
  | (b, g, ps), ac :: rest =>
      if ac.Lat = 0 ∧ ac.Lon = 0 then iconPass W H (b, g, ps) rest
      else
        let r := projectPt b ac.Lon ac.Lat W H
        let s' := if 0 ≤ r.2.1 ∧ r.2.1 < (W : ℤ) ∧ 0 ≤ r.2.2 ∧ r.2.2 < (H : ℤ)
          then (r.1, setCell g r.2.2.toNat r.2.1.toNat Cell.plane,
                ps ++ [(ac.ICAO, r.2.1.toNat, r.2.2.toNat)])
          else (r.1, g, ps)
        iconPass W H s' rest

/-- The per-character callsign loop (map.go lines 381–394): stop at the
right edge, write only into blank cells. -/
def labelLoop (W yi : ℕ) : Grid → ℕ → List Char → Grid
  | g, _, [] => g
  | g, xi, ch :: rest =>
      if W ≤ xi then g
      else
        labelLoop W yi
          (if getCell g yi xi = Cell.blank then setCell g yi xi (Cell.label ch)
           else g)
          (xi + 1) rest

/-- Draw one callsign one row below its icon (map.go lines 372–394);
skipped entirely when that row is off-screen. -/
def drawLabel (W H : ℕ) (g : Grid) (x y : ℕ) (cs : List Char) : Grid :=
  if H ≤ y + 1 then g else labelLoop W (y + 1) g x cs

/-- The `m.aircraft[icao]` lookup used by the label pass. -/
def lookupAircraft (l : List Aircraft) (icao : String) : Option Aircraft :=
  l.find? (fun ac => ac.ICAO = icao)

/-- Label pass (map.go lines 366–395): for each recorded icon position,
look the aircraft up and draw its callsign.  (The `none` branch mirrors
the fact that a missing table entry draws nothing; it is unreachable
because positions are recorded from the same table.) -/
def labelPass (W H : ℕ) (acs : List Aircraft) :
    Grid → List (String × ℕ × ℕ) → Grid
  | g, [] => g
  | g, (icao, x, y) :: rest =>
      let g' := match lookupAircraft acs icao with
        | none => g
        | some ac =>
            if ac.Callsign = "" then g
            else drawLabel W H g x y ac.Callsign.toList
      labelPass W H acs g' rest

/-- The copy of the cache taken before the aircraft passes (map.go lines
338–343), including the unreachable `nil` failsafe that allocates a fresh
grid of zero-value cells. -/
def copyOrBlank (cache : Grid) (W H : ℕ) : Grid :=
  match copyGrid (some cache) with
  | some g => g
  | none => List.replicate H (List.replicate W Cell.empty)

/-- The method `renderMapViewport` (map.go lines 279–404): clamp dimensions, rebuild
the static cache if invalid, copy it, run the icon and label passes.
Returns the updated model (cache, redraw flag, possibly nudged view
bounds) and the composited grid (the output string is the grid flattened
row by row, an injective encoding, so grids are compared directly). -/
def renderMapViewport (m : Model) (w0 h0 : ℤ) : Model × Grid :=
  let W := clampDim w0
  let H := clampDim h0
  let rebuild := rebuildCond m W H
  let built := buildStatic m.viewBounds m.mapPolygons m.airportPoints W H
  let b1 : Box := if rebuild then built.1 else m.viewBounds
  let cache : Grid := if rebuild then built.2 else m.cachedStaticGrid.getD []
  let nr : Bool := if rebuild then false else m.needsRedraw
  let r := iconPass W H (b1, copyOrBlank cache W H, []) m.aircraft
  let out := labelPass W H m.aircraft r.2.1 r.2.2
  ({ m with viewBounds := r.1, cachedStaticGrid := some cache,
            needsRedraw := nr }, out)

/-- The constant `panFactor = 0.1`. -/
def panFactor : ℚ := 1 / 10

/-- The constant `zoomFactor = 1.2`. -/
def zoomFactor : ℚ := 6 / 5

/-- The method `pan` (map.go lines 174–186). -/
def pan (m : Model) (dx dy : ℚ) : Model :=
  let w := boxW m.viewBounds
  let h := boxH m.viewBounds
  { m with
    viewBounds :=
      { MinX := m.viewBounds.MinX + w * dx, MaxX := m.viewBounds.MaxX + w * dx
        MinY := m.viewBounds.MinY + h * dy, MaxY := m.viewBounds.MaxY + h * dy }
    needsRedraw := true }

/-- The method `zoom` (map.go lines 151–171): scale about the view center; if the new
width or height would exceed the original extent, reset to
`originalBounds`. -/
def zoom (m : Model) (factor : ℚ) : Model :=
  let cX := (m.viewBounds.MinX + m.viewBounds.MaxX) / 2
  let cY := (m.viewBounds.MinY + m.viewBounds.MaxY) / 2
  let nw := boxW m.viewBounds * factor
  let nh := boxH m.viewBounds * factor
  if nw > boxW m.originalBounds ∨ nh > boxH m.originalBounds then
    { m with viewBounds := m.originalBounds, needsRedraw := true }
  else
    { m with
      viewBounds := { MinX := cX - nw / 2, MaxX := cX + nw / 2
                      MinY := cY - nh / 2, MaxY := cY + nh / 2 }
      needsRedraw := true }

/-- The method `SetViewToLocation` (map.go lines 126–148): recenter at 25.5× zoom,
preserving the original aspect ratio. -/
def setViewToLocation (m : Model) (lat lon : ℚ) : Model :=
  let ow := boxW m.originalBounds
  let aspect := ow / boxH m.originalBounds
  let nw := ow / (51 / 2)
  let nh := nw / aspect
  { m with
    viewBounds := { MinX := lon - nw / 2, MaxX := lon + nw / 2
                    MinY := lat - nh / 2, MaxY := lat + nh / 2 }
    needsRedraw := true }

/-- The `"r"` key handler (map.go lines 219–221). -/
def resetView (m : Model) : Model :=
  { m with viewBounds := m.originalBounds, needsRedraw := true }

/-- The `tea.WindowSizeMsg` handler (map.go lines 200–203). -/
def resize (m : Model) (w h : ℤ) : Model :=
  { m with width := w, height := h, needsRedraw := true }

/-- The discrete view-mutating commands dispatched by `Update` plus the
auto-recenter (`SetViewToLocation`) and window resize. -/
inductive Op where
  | panUp | panDown | panLeft | panRight
  | zoomIn | zoomOut
  | reset
  | recenter (lat lon : ℚ)
  | resizeWin (w h : ℤ)
deriving DecidableEq

/-- Effect of one command on the model, per the `Update` key switch
(map.go lines 205–222) and `SetViewToLocation`. -/
def applyOp (m : Model) : Op → Model
  | .panUp => pan m 0 panFactor
  | .panDown => pan m 0 (-panFactor)
  | .panLeft => pan m (-panFactor) 0
  | .panRight => pan m panFactor 0
  | .zoomIn => zoom m (1 / zoomFactor)
  | .zoomOut => zoom m zoomFactor
  | .reset => resetView m
  | .recenter lat lon => setViewToLocation m lat lon
  | .resizeWin w h => resize m w h

/-- Apply a sequence of commands. -/
def applyOps (m : Model) (ops : List Op) : Model := ops.foldl applyOp m

/-- The method `m.zoom` iterated `n` times with a fixed factor. -/
def zoomIter (f : ℚ) : ℕ → Model → Model
  | 0, m => m
  | n + 1, m => zoomIter f n (zoom m f)

/-- "Repeatedly applying Zoom converges to exactly `originalBounds`":
some number of iterations reaches the original extent. -/
def convergesToOrig (m : Model) (f : ℚ) : Prop :=
  ∃ n, (zoomIter f n m).viewBounds = m.originalBounds

/-- The stateful face of `project` for a whole model: Go's
`m.project(lon, lat, w, h)` mutates `m.viewBounds` via the epsilon nudge
and returns the coordinates. -/
def projectModel (m : Model) (lon lat : ℚ) (W H : ℕ) : Model × ℤ × ℤ :=
  let r := projectPt m.viewBounds lon lat W H
  ({ m with viewBounds := r.1 }, r.2.1, r.2.2)

/-- Association-table lookup for the aircraft master list. -/
def lookupTbl : List (String × Aircraft) → String → Option Aircraft
  | [], _ => none
  | (k, v) :: rest, k' => if k = k' then some v else lookupTbl rest k'

/-- The helper `mergeAircraft` (footer.go context, lines 354–382; the identical inline
merge appears in the `Update` handler at lines 176–214): first sighting
stores the update as-is; otherwise non-empty/non-zero fields overwrite,
with latitude and longitude treated as a pair (`update.Lat != 0 &&
update.Lon != 0`), and `LastSeen` is refreshed. -/
def mergeAircraft (table : List (String × Aircraft)) (update : Option Aircraft)
    (now : ℕ) : List (String × Aircraft) :=
  match update with
  | none => table
  | some u =>
    match lookupTbl table u.ICAO with
    | none => (u.ICAO, u) :: table
    | some ac =>
        let merged : Aircraft :=
          { ICAO := ac.ICAO
            Callsign := if u.Callsign ≠ "" then u.Callsign else ac.Callsign
            Lat := if u.Lat ≠ 0 ∧ u.Lon ≠ 0 then u.Lat else ac.Lat
            Lon := if u.Lat ≠ 0 ∧ u.Lon ≠ 0 then u.Lon else ac.Lon
            Speed := if u.Speed ≠ 0 then u.Speed else ac.Speed
            Track := if u.Track ≠ 0 then u.Track else ac.Track
            LastSeen := now }
        table.map (fun p => if p.1 = u.ICAO then (p.1, merged) else p)


/-- Column component of `project`: normalized X scaled to the grid with
the aspect-ratio squash. -/
def projCol (b : Box) (lon : ℚ) (W : ℕ) : ℤ :=
  trunc ((lon - (nudge b).MinX) / ((nudge b).MaxX - (nudge b).MinX) * (W : ℚ) / charAspect)

/-- Row component of `project`: inverted normalized Y scaled to the grid. -/
def projRow (b : Box) (lat : ℚ) (H : ℕ) : ℤ :=
  trunc (((nudge b).MaxY - lat) / ((nudge b).MaxY - (nudge b).MinY) * (H : ℚ))

/-- A minimal model: no geometry, no aircraft, no cache yet. -/
def emptyModel (vb : Box) : Model :=
  { width := 80, height := 23, mapPolygons := [], airportPoints := [],
    aircraft := [], originalBounds := vb, viewBounds := vb,
    cachedStaticGrid := none, needsRedraw := true }

/-- The spec's projection-scenario viewport `{minX:-10,minY:-10,maxX:10,maxY:10}`. -/
def scenBox : Box := ⟨-10, -10, 10, 10⟩

/-- A model whose view is degenerate on the X axis (`MinX = MaxX = 3`). -/
def degModel : Model :=
  { emptyModel ⟨3, 0, 3, 10⟩ with originalBounds := ⟨0, 0, 10, 10⟩ }

/-- A model whose view has collapsed to the single point `(3,3)` inside a
non-degenerate original extent. -/
def pointModel : Model :=
  { emptyModel ⟨3, 3, 3, 3⟩ with originalBounds := ⟨0, 0, 10, 10⟩ }

/-- Two aircraft whose icons land on the same row in adjacent columns, so
their callsign labels compete for the same cells. -/
def acA : Aircraft := ⟨"AAA", "AB", 5, 0, 0, 0, 0⟩

/-- See `acA`. -/
def acB : Aircraft := ⟨"BBB", "CD", 5, 2, 0, 0, 0⟩

/-- A geometry-free model over a `(0,0)–(10,10)` extent carrying the given
aircraft table. -/
def overlapModel (l : List Aircraft) : Model :=
  { emptyModel ⟨0, 0, 10, 10⟩ with aircraft := l }

/-- The icon pass with the recorded-positions component dropped: the box
and grid evolution of `iconPass` (whose box/grid updates never read the
positions list). -/
def iconPassBG (W H : ℕ) : Box × Grid → List Aircraft → Box × Grid
  | s, [] => s
  | (b, g), ac :: rest =>
      if ac.Lat = 0 ∧ ac.Lon = 0 then iconPassBG W H (b, g) rest
      else
        let r := projectPt b ac.Lon ac.Lat W H
        let s' := if 0 ≤ r.2.1 ∧ r.2.1 < (W : ℤ) ∧ 0 ≤ r.2.2 ∧ r.2.2 < (H : ℤ)
          then (r.1, setCell g r.2.2.toNat r.2.1.toNat Cell.plane)
          else (r.1, g)
        iconPassBG W H s' rest

/-- The viewport-extent invariant of the claim: nonnegative extent, never
wider or taller than the original extent. -/
def invExtent (m : Model) : Prop :=
  0 ≤ boxW m.viewBounds ∧ boxW m.viewBounds ≤ boxW m.originalBounds ∧
  0 ≤ boxH m.viewBounds ∧ boxH m.viewBounds ≤ boxH m.originalBounds

/-- A model over the scenario extent whose view is a small 1×1 square. -/
def smallViewModel : Model :=
  { emptyModel scenBox with viewBounds := ⟨0, 0, 1, 1⟩ }

/-- A one-aircraft master table with a known position fix. -/
def mergeTbl : List (String × Aircraft) := [("X", ⟨"X", "OLD", 1, 2, 3, 4, 0⟩)]

/-- A partial update carrying a non-zero latitude but a zero longitude. -/
def mergeUpd : Aircraft := ⟨"X", "", 5, 0, 0, 0, 9⟩

/-! ### Basic facts about `trunc` -/

/-- The truncation `trunc` is the floor on nonnegative arguments and the ceiling on
negative ones. -/
theorem trunc_eq (q : ℚ) : trunc q = if 0 ≤ q then ⌊q⌋ else ⌈q⌉ := by
  unfold trunc
  split
  · next h =>
    rw [Rat.floor_def, Int.tdiv_eq_ediv (Rat.num_nonneg.mpr h) (by positivity)]
  · next h =>
    have hneg : -q.num = (-q).num := by simp
    calc q.num.tdiv q.den = -((-q.num).tdiv q.den) := by
          rw [Int.neg_tdiv, Int.neg_neg]
      _ = -((-q).num.tdiv ((-q).den : ℤ)) := by rw [hneg]; simp
      _ = -⌊-q⌋ := by
          rw [Rat.floor_def, Int.tdiv_eq_ediv (Rat.num_nonneg.mpr (by linarith [lt_of_not_le h] : (0:ℚ) ≤ -q)) (by positivity)]
      _ = ⌈q⌉ := by rw [Int.floor_neg]; simp

/-- The truncation `trunc` is monotone (truncation toward zero preserves `≤`). -/
theorem trunc_mono {q r : ℚ} (h : q ≤ r) : trunc q ≤ trunc r := by
  rw [trunc_eq, trunc_eq]
  by_cases hq : 0 ≤ q <;> by_cases hr : 0 ≤ r
  · simpa [hq, hr] using Int.floor_mono h
  · exact absurd (le_trans hq h) hr
  · simp only [hq, hr, if_true, if_false, if_neg, if_pos]
    calc ⌈q⌉ ≤ 0 := Int.ceil_le.mpr (by exact_mod_cast le_of_lt (lt_of_not_le hq))
      _ ≤ ⌊r⌋ := by simpa using Int.floor_nonneg.mpr hr
  · simpa [hq, hr] using Int.ceil_mono h

/-! ### Facts about the epsilon nudge and the projector -/

theorem eps_pos : (0 : ℚ) < eps := by norm_num [eps]

theorem nudgeX_MinX (b : Box) : (nudgeX b).MinX = b.MinX := by
  unfold nudgeX; split <;> rfl

theorem nudgeX_MinY (b : Box) : (nudgeX b).MinY = b.MinY := by
  unfold nudgeX; split <;> rfl

theorem nudgeX_MaxY (b : Box) : (nudgeX b).MaxY = b.MaxY := by
  unfold nudgeX; split <;> rfl

theorem nudgeY_MinX (b : Box) : (nudgeY b).MinX = b.MinX := by
  unfold nudgeY; split <;> rfl

theorem nudgeY_MinY (b : Box) : (nudgeY b).MinY = b.MinY := by
  unfold nudgeY; split <;> rfl

theorem nudgeY_MaxX (b : Box) : (nudgeY b).MaxX = b.MaxX := by
  unfold nudgeY; split <;> rfl

/-- The nudge never moves `MinX`. -/
theorem nudge_MinX (b : Box) : (nudge b).MinX = b.MinX := by
  unfold nudge; rw [nudgeY_MinX, nudgeX_MinX]

/-- The nudge never moves `MinY`. -/
theorem nudge_MinY (b : Box) : (nudge b).MinY = b.MinY := by
  unfold nudge; rw [nudgeY_MinY, nudgeX_MinY]

/-- After a nudge the X axis is never degenerate. -/
theorem nudge_x_ne (b : Box) : (nudge b).MaxX ≠ (nudge b).MinX := by
  unfold nudge
  rw [nudgeY_MaxX, nudgeY_MinX]
  unfold nudgeX
  split
  · next h =>
    show b.MaxX + eps ≠ b.MinX
    rw [h]; intro hc
    have := eps_pos; linarith
  · next h => exact h

/-- After a nudge the Y axis is never degenerate. -/
theorem nudge_y_ne (b : Box) : (nudge b).MaxY ≠ (nudge b).MinY := by
  unfold nudge nudgeY
  split
  · next h =>
    show (nudgeX b).MaxY + eps ≠ (nudgeX b).MinY
    rw [h]; intro hc
    have := eps_pos; linarith
  · next h => exact h

/-- A box that is non-degenerate on both axes is left unchanged by the
nudge. -/
theorem nudge_of_ne {b : Box} (hx : b.MaxX ≠ b.MinX) (hy : b.MaxY ≠ b.MinY) :
    nudge b = b := by
  unfold nudge nudgeX
  rw [if_neg hx]
  unfold nudgeY
  rw [if_neg hy]

/-- The nudge is idempotent. -/
theorem nudge_idem (b : Box) : nudge (nudge b) = nudge b :=
  nudge_of_ne (nudge_x_ne b) (nudge_y_ne b)

/-- If the box satisfies the documented invariant `min ≤ max` on X, the
nudged box has strictly positive width. -/
theorem nudge_x_lt {b : Box} (hx : b.MinX ≤ b.MaxX) :
    (nudge b).MinX < (nudge b).MaxX := by
  rw [nudge_MinX]
  unfold nudge
  rw [nudgeY_MaxX]
  unfold nudgeX
  split
  · next h =>
    show b.MinX < b.MaxX + eps
    have := eps_pos; linarith
  · next h => exact lt_of_le_of_ne hx fun e => h e.symm

/-- If the box satisfies the documented invariant `min ≤ max` on Y, the
nudged box has strictly positive height. -/
theorem nudge_y_lt {b : Box} (hy : b.MinY ≤ b.MaxY) :
    (nudge b).MinY < (nudge b).MaxY := by
  unfold nudge nudgeY
  split
  · next h =>
    rw [nudgeX_MinY]
    show b.MinY < (nudgeX b).MaxY + eps
    rw [nudgeX_MaxY]
    have := eps_pos; linarith
  · next h =>
    rw [nudgeX_MinY, nudgeX_MaxY]
    rcases lt_or_eq_of_le hy with h' | h'
    · exact h'
    · exact absurd (by rw [nudgeX_MaxY, nudgeX_MinY]; exact h'.symm) h

/-- Projecting with a pre-nudged box gives the same result as projecting
with the box itself. -/
theorem projectPt_nudge (b : Box) (lon lat : ℚ) (W H : ℕ) :
    projectPt (nudge b) lon lat W H = projectPt b lon lat W H := by
  unfold projectPt; rw [nudge_idem]

/-! ### C3: monotonicity of the projection -/

/-- Unfolding: `projectPt` is `(nudge, projCol, projRow)`. -/
theorem projectPt_eq (b : Box) (lon lat : ℚ) (W H : ℕ) :
    projectPt b lon lat W H = (nudge b, projCol b lon W, projRow b lat H) := rfl

/-- Larger longitude gives a no-smaller column. -/
theorem projCol_mono {b : Box} {lon1 lon2 : ℚ} (W : ℕ)
    (hx : b.MinX ≤ b.MaxX) (h : lon1 ≤ lon2) :
    projCol b lon1 W ≤ projCol b lon2 W := by
  have hdx : 0 < (nudge b).MaxX - (nudge b).MinX := sub_pos.mpr (nudge_x_lt hx)
  have hca : (0 : ℚ) < charAspect := by norm_num [charAspect]
  apply trunc_mono
  have h1 : (lon1 - (nudge b).MinX) / ((nudge b).MaxX - (nudge b).MinX) ≤
      (lon2 - (nudge b).MinX) / ((nudge b).MaxX - (nudge b).MinX) :=
    (div_le_div_right hdx).mpr (by linarith)
  have h2 := mul_le_mul_of_nonneg_right h1 (by positivity : (0 : ℚ) ≤ (W : ℚ))
  exact (div_le_div_right hca).mpr h2

/-- Larger latitude gives a no-larger row (the latitude axis is inverted). -/
theorem projRow_antimono {b : Box} {lat1 lat2 : ℚ} (H : ℕ)
    (hy : b.MinY ≤ b.MaxY) (h : lat1 ≤ lat2) :
    projRow b lat2 H ≤ projRow b lat1 H := by
  have hdy : 0 < (nudge b).MaxY - (nudge b).MinY := sub_pos.mpr (nudge_y_lt hy)
  apply trunc_mono
  have h1 : ((nudge b).MaxY - lat2) / ((nudge b).MaxY - (nudge b).MinY) ≤
      ((nudge b).MaxY - lat1) / ((nudge b).MaxY - (nudge b).MinY) :=
    (div_le_div_right hdy).mpr (by linarith)
  exact mul_le_mul_of_nonneg_right h1 (by positivity)

/-- C3: for a fixed viewport (satisfying the documented `min ≤ max`
invariant) and fixed grid dimensions, the projection is monotone: a larger
longitude never decreases the projected column, and a larger latitude
never increases the projected row (latitude axis inverted). -/
theorem project_monotone (b : Box) (W H : ℕ) (lon lat lon1 lon2 lat1 lat2 : ℚ)
    (hx : b.MinX ≤ b.MaxX) (hy : b.MinY ≤ b.MaxY)
    (hlon : lon1 < lon2) (hlat : lat1 < lat2) :
    (projectPt b lon1 lat W H).2.1 ≤ (projectPt b lon2 lat W H).2.1 ∧
    (projectPt b lon lat2 W H).2.2 ≤ (projectPt b lon lat1 W H).2.2 := by
  simp only [projectPt_eq]
  exact ⟨projCol_mono W hx hlon.le, projRow_antimono H hy hlat.le⟩

/-- Witness for C3 at the scenario viewport. -/
theorem project_monotone_witness :
    (scenBox.MinX ≤ scenBox.MaxX ∧ scenBox.MinY ≤ scenBox.MaxY ∧
      (-1 : ℚ) < 1 ∧ (-2 : ℚ) < 2) ∧
    ((projectPt scenBox (-1) 0 10 10).2.1 ≤ (projectPt scenBox 1 0 10 10).2.1 ∧
      (projectPt scenBox 0 2 10 10).2.2 ≤ (projectPt scenBox 0 (-2) 10 10).2.2) :=
  ⟨by refine ⟨?_, ?_, ?_, ?_⟩ <;> norm_num [scenBox],
   project_monotone scenBox 10 10 0 0 (-1) 1 (-2) 2
     (by norm_num [scenBox]) (by norm_num [scenBox]) (by norm_num) (by norm_num)⟩

/-! ### C4: the concrete projection scenario -/

/-- C4 counterexample: with the scenario viewport and a 10×10 grid the
point `(0,0)` projects to column 2, not to a column near 5 (the aspect
squash applies to the whole X axis, center included), and `(10,-10)`
projects to row 10, one past the bottom row of the grid. -/
theorem project_scenario_cex :
    (projectPt scenBox 0 0 10 10).2.1 = 2 ∧
    ¬(4 ≤ (projectPt scenBox 0 0 10 10).2.1 ∧
        (projectPt scenBox 0 0 10 10).2.1 ≤ 6) ∧
    (projectPt scenBox 10 (-10) 10 10).2.2 = 10 ∧
    ¬((projectPt scenBox 10 (-10) 10 10).2.2 < 10) := by
  with_unfolding_all decide

/-- C4 amended: `(0,0)` projects to `(col 2, row 5)` (row centered, column
at the middle of the aspect-corrected width `⌊10/1.9⌋ = 5`); `(-10,10)`
projects exactly to `(0,0)`; `(10,-10)` projects to `(col 5, row 10)`, the
rightmost aspect-corrected column and one row below the grid (the
projector does not clip). -/
theorem project_scenario :
    projectPt scenBox 0 0 10 10 = (scenBox, 2, 5) ∧
    projectPt scenBox (-10) 10 10 10 = (scenBox, 0, 0) ∧
    projectPt scenBox 10 (-10) 10 10 = (scenBox, 5, 10) := by
  with_unfolding_all decide

/-! ### C5: statefulness of the projector -/

/-- C5 counterexample: on a view degenerate on the X axis, calling the
projector mutates the stored view bounds (the epsilon nudge writes through
the pointer receiver), so the viewport state is not left unchanged. -/
theorem project_stateless_cex :
    degModel.viewBounds.MaxX = degModel.viewBounds.MinX ∧
    (projectModel degModel 1 1 10 10).1 ≠ degModel ∧
    (projectModel degModel 1 1 10 10).1.viewBounds.MaxX
      = degModel.viewBounds.MaxX + eps := by
  have hmax : (projectModel degModel 1 1 10 10).1.viewBounds.MaxX
      = degModel.viewBounds.MaxX + eps := by
    norm_num [projectModel, projectPt_eq, degModel, emptyModel, nudge, nudgeX, nudgeY]
  refine ⟨by norm_num [degModel, emptyModel], ?_, hmax⟩
  intro hEq
  rw [hEq] at hmax
  have := eps_pos
  linarith

/-- The column `projCol` is invariant under pre-nudging. -/
theorem projCol_nudge (b : Box) (lon : ℚ) (W : ℕ) :
    projCol (nudge b) lon W = projCol b lon W := by
  unfold projCol; rw [nudge_idem]

/-- The row `projRow` is invariant under pre-nudging. -/
theorem projRow_nudge (b : Box) (lat : ℚ) (H : ℕ) :
    projRow (nudge b) lat H = projRow b lat H := by
  unfold projRow; rw [nudge_idem]

/-- C5 amended: the projector never touches `originalBounds`; it leaves
`viewBounds` unchanged whenever the view is non-degenerate on both axes;
and it is deterministic and idempotent as a state transformer: a second
call with the same inputs returns the same coordinates and changes
nothing. -/
theorem project_frame (m : Model) (lon lat : ℚ) (W H : ℕ) :
    (m.viewBounds.MaxX ≠ m.viewBounds.MinX →
      m.viewBounds.MaxY ≠ m.viewBounds.MinY →
      (projectModel m lon lat W H).1 = m) ∧
    (projectModel m lon lat W H).1.originalBounds = m.originalBounds ∧
    projectModel ((projectModel m lon lat W H).1) lon lat W H
      = ((projectModel m lon lat W H).1, (projectModel m lon lat W H).2) := by
  refine ⟨fun hx hy => ?_, rfl, ?_⟩
  · show { m with viewBounds := (projectPt m.viewBounds lon lat W H).1 } = m
    rw [projectPt_eq, nudge_of_ne hx hy]
  · simp only [projectModel, projectPt_eq, nudge_idem, projCol_nudge, projRow_nudge]

/-- Witness for C5's amended theorem on a non-degenerate view. -/
theorem project_frame_witness :
    ((emptyModel scenBox).viewBounds.MaxX ≠ (emptyModel scenBox).viewBounds.MinX) ∧
    (projectModel (emptyModel scenBox) 1 2 10 10).1 = emptyModel scenBox :=
  ⟨by with_unfolding_all decide,
   (project_frame (emptyModel scenBox) 1 2 10 10).1
     (by with_unfolding_all decide) (by with_unfolding_all decide)⟩

/-! ### C9: the aircraft merge -/

/-- Replacing the value bound to `k` in an association table is seen by a
subsequent lookup of `k` exactly when `k` was bound. -/
theorem lookupTbl_map_replace (t : List (String × Aircraft)) (k : String)
    (v : Aircraft) :
    lookupTbl (t.map fun p => if p.1 = k then (p.1, v) else p) k
      = (lookupTbl t k).map fun _ => v := by
  induction t with
  | nil => rfl
  | cons p rest ih =>
    simp only [List.map_cons]
    by_cases h : p.1 = k
    · rw [if_pos h]
      simp only [lookupTbl]
      rw [if_pos h, if_pos h]
      rfl
    · rw [if_neg h]
      simp only [lookupTbl]
      rw [if_neg h, if_neg h]
      exact ih

/-- C9 counterexample: an update whose latitude is non-zero but whose
longitude is zero does not overwrite the stored position — the merge
requires both coordinates to be non-zero — contradicting "an update with a
non-zero latitude overwrites the stored position". -/
theorem merge_nonzero_lat_cex :
    mergeUpd.Lat ≠ 0 ∧
    (lookupTbl mergeTbl "X").map Aircraft.Lat = some 1 ∧
    (lookupTbl (mergeAircraft mergeTbl (some mergeUpd) 9) "X").map Aircraft.Lat
      = some 1 ∧
    (1 : ℚ) ≠ mergeUpd.Lat := by
  with_unfolding_all decide

/-- C9 amended: merging a partial update into an existing record never
erases with sentinels: an empty callsign and zero speed/track leave the
stored fields unchanged while non-empty/non-zero ones overwrite; latitude
and longitude are treated as a pair — the stored position is overwritten
exactly when both update coordinates are non-zero, and left unchanged when
either is zero; `LastSeen` is refreshed. -/
theorem merge_rules (table : List (String × Aircraft)) (u : Aircraft)
    (now : ℕ) (ac : Aircraft) (h : lookupTbl table u.ICAO = some ac) :
    ∃ ac', lookupTbl (mergeAircraft table (some u) now) u.ICAO = some ac' ∧
      (u.Callsign = "" → ac'.Callsign = ac.Callsign) ∧
      (u.Callsign ≠ "" → ac'.Callsign = u.Callsign) ∧
      (u.Lat ≠ 0 → u.Lon ≠ 0 → ac'.Lat = u.Lat ∧ ac'.Lon = u.Lon) ∧
      (u.Lat = 0 ∨ u.Lon = 0 → ac'.Lat = ac.Lat ∧ ac'.Lon = ac.Lon) ∧
      (u.Speed = 0 → ac'.Speed = ac.Speed) ∧
      (u.Speed ≠ 0 → ac'.Speed = u.Speed) ∧
      (u.Track = 0 → ac'.Track = ac.Track) ∧
      (u.Track ≠ 0 → ac'.Track = u.Track) ∧
      ac'.ICAO = ac.ICAO ∧ ac'.LastSeen = now := by
  unfold mergeAircraft
  simp only [h]
  rw [lookupTbl_map_replace, h, Option.map_some']
  refine ⟨_, rfl, ?_, ?_, ?_, ?_, ?_, ?_, ?_, ?_, rfl, rfl⟩
  · intro h'; simp [h']
  · intro h'; simp [h']
  · intro h1 h2; simp [h1, h2]
  · intro h'; rcases h' with h' | h' <;> simp [h']
  · intro h'; simp [h']
  · intro h'; simp [h']
  · intro h'; simp [h']
  · intro h'; simp [h']

/-- Witness for C9's amended theorem: merging `mergeUpd` (empty callsign,
latitude 5, longitude 0) into the table that stores `("X", ⟨…1,2,3,4…⟩)`. -/
theorem merge_rules_witness :
    lookupTbl mergeTbl mergeUpd.ICAO = some ⟨"X", "OLD", 1, 2, 3, 4, 0⟩ ∧
    (∃ ac', lookupTbl (mergeAircraft mergeTbl (some mergeUpd) 9)
          mergeUpd.ICAO = some ac' ∧
      (mergeUpd.Callsign = "" →
        ac'.Callsign = (⟨"X", "OLD", 1, 2, 3, 4, 0⟩ : Aircraft).Callsign) ∧
      (mergeUpd.Callsign ≠ "" → ac'.Callsign = mergeUpd.Callsign) ∧
      (mergeUpd.Lat ≠ 0 → mergeUpd.Lon ≠ 0 →
        ac'.Lat = mergeUpd.Lat ∧ ac'.Lon = mergeUpd.Lon) ∧
      (mergeUpd.Lat = 0 ∨ mergeUpd.Lon = 0 →
        ac'.Lat = (⟨"X", "OLD", 1, 2, 3, 4, 0⟩ : Aircraft).Lat ∧
        ac'.Lon = (⟨"X", "OLD", 1, 2, 3, 4, 0⟩ : Aircraft).Lon) ∧
      (mergeUpd.Speed = 0 →
        ac'.Speed = (⟨"X", "OLD", 1, 2, 3, 4, 0⟩ : Aircraft).Speed) ∧
      (mergeUpd.Speed ≠ 0 → ac'.Speed = mergeUpd.Speed) ∧
      (mergeUpd.Track = 0 →
        ac'.Track = (⟨"X", "OLD", 1, 2, 3, 4, 0⟩ : Aircraft).Track) ∧
      (mergeUpd.Track ≠ 0 → ac'.Track = mergeUpd.Track) ∧
      ac'.ICAO = (⟨"X", "OLD", 1, 2, 3, 4, 0⟩ : Aircraft).ICAO ∧
      ac'.LastSeen = 9) :=
  ⟨by with_unfolding_all decide,
   merge_rules mergeTbl mergeUpd 9 ⟨"X", "OLD", 1, 2, 3, 4, 0⟩
     (by with_unfolding_all decide)⟩

/-! ### C10: the viewport extent invariant -/

/-- Panning never changes the view width. -/
theorem pan_viewW (m : Model) (dx dy : ℚ) :
    boxW (pan m dx dy).viewBounds = boxW m.viewBounds := by
  simp only [pan, boxW]; ring

/-- Panning never changes the view height. -/
theorem pan_viewH (m : Model) (dx dy : ℚ) :
    boxH (pan m dx dy).viewBounds = boxH m.viewBounds := by
  simp only [pan, boxH]; ring

/-- Panning never changes the original bounds. -/
theorem pan_orig (m : Model) (dx dy : ℚ) :
    (pan m dx dy).originalBounds = m.originalBounds := rfl

/-- The method `zoom` either clamps to the original bounds or scales both extents by
the factor, in which case the guard certifies neither exceeds the original
extent. -/
theorem zoom_cases (m : Model) (f : ℚ) :
    (zoom m f).viewBounds = m.originalBounds ∨
      (boxW (zoom m f).viewBounds = boxW m.viewBounds * f ∧
       boxH (zoom m f).viewBounds = boxH m.viewBounds * f ∧
       boxW m.viewBounds * f ≤ boxW m.originalBounds ∧
       boxH m.viewBounds * f ≤ boxH m.originalBounds) := by
  simp only [zoom]
  split_ifs with hcl
  · left; rfl
  · right
    push_neg at hcl
    refine ⟨?_, ?_, hcl.1, hcl.2⟩
    · simp only [boxW]; ring
    · simp only [boxH]; ring

/-- Zooming never changes the original bounds. -/
theorem zoom_orig (m : Model) (f : ℚ) :
    (zoom m f).originalBounds = m.originalBounds := by
  simp only [zoom]
  split_ifs <;> rfl

/-- Recentering via `SetViewToLocation` sets the view width to 1/25.5 of the original. -/
theorem recenter_viewW (m : Model) (lat lon : ℚ) :
    boxW (setViewToLocation m lat lon).viewBounds
      = boxW m.originalBounds / (51 / 2) := by
  simp only [setViewToLocation, boxW]; ring

/-- Recentering via `SetViewToLocation` sets the view height to 1/25.5 of the original
(for a non-degenerate original extent, via the aspect-ratio division). -/
theorem recenter_viewH (m : Model) (lat lon : ℚ)
    (how : boxW m.originalBounds ≠ 0) :
    boxH (setViewToLocation m lat lon).viewBounds
      = boxH m.originalBounds / (51 / 2) := by
  simp only [setViewToLocation, boxH, boxW] at *
  field_simp
  ring

/-- Every command preserves the original bounds. -/
theorem applyOp_origBounds (m : Model) (op : Op) :
    (applyOp m op).originalBounds = m.originalBounds := by
  cases op <;> first | rfl | exact zoom_orig m _

/-- One command preserves the extent invariant. -/
theorem applyOp_invExtent {m : Model} (how : 0 < boxW m.originalBounds)
    (hoh : 0 < boxH m.originalBounds) (hi : invExtent m) (op : Op) :
    invExtent (applyOp m op) := by
  obtain ⟨h1, h2, h3, h4⟩ := hi
  have hzoom : ∀ f : ℚ, 0 < f → invExtent (zoom m f) := by
    intro f hf
    rcases zoom_cases m f with hcl | ⟨hw, hh, hbw, hbh⟩
    · unfold invExtent
      rw [hcl, zoom_orig]
      exact ⟨how.le, le_refl _, hoh.le, le_refl _⟩
    · unfold invExtent
      rw [hw, hh, zoom_orig]
      exact ⟨mul_nonneg h1 hf.le, hbw, mul_nonneg h3 hf.le, hbh⟩
  cases op with
  | panUp =>
    exact ⟨by rw [applyOp, pan_viewW]; exact h1,
      by rw [applyOp, pan_viewW, pan_orig]; exact h2,
      by rw [applyOp, pan_viewH]; exact h3,
      by rw [applyOp, pan_viewH, pan_orig]; exact h4⟩
  | panDown =>
    exact ⟨by rw [applyOp, pan_viewW]; exact h1,
      by rw [applyOp, pan_viewW, pan_orig]; exact h2,
      by rw [applyOp, pan_viewH]; exact h3,
      by rw [applyOp, pan_viewH, pan_orig]; exact h4⟩
  | panLeft =>
    exact ⟨by rw [applyOp, pan_viewW]; exact h1,
      by rw [applyOp, pan_viewW, pan_orig]; exact h2,
      by rw [applyOp, pan_viewH]; exact h3,
      by rw [applyOp, pan_viewH, pan_orig]; exact h4⟩
  | panRight =>
    exact ⟨by rw [applyOp, pan_viewW]; exact h1,
      by rw [applyOp, pan_viewW, pan_orig]; exact h2,
      by rw [applyOp, pan_viewH]; exact h3,
      by rw [applyOp, pan_viewH, pan_orig]; exact h4⟩
  | zoomIn => exact hzoom _ (by norm_num [zoomFactor])
  | zoomOut => exact hzoom _ (by norm_num [zoomFactor])
  | reset =>
    exact ⟨how.le, le_refl _, hoh.le, le_refl _⟩
  | recenter lat lon =>
    show invExtent (setViewToLocation m lat lon)
    have hW := recenter_viewW m lat lon
    have hH := recenter_viewH m lat lon how.ne.symm
    have horig : (setViewToLocation m lat lon).originalBounds
        = m.originalBounds := rfl
    unfold invExtent
    rw [hW, hH, horig]
    refine ⟨by positivity, div_le_self how.le (by norm_num),
      by positivity, div_le_self hoh.le (by norm_num)⟩
  | resizeWin w h => exact ⟨h1, h2, h3, h4⟩

/-- A command sequence preserves the extent invariant and the original
bounds. -/
theorem applyOps_invExtent (ops : List Op) :
    ∀ m : Model, 0 < boxW m.originalBounds → 0 < boxH m.originalBounds →
      invExtent m →
      invExtent (applyOps m ops) ∧
        (applyOps m ops).originalBounds = m.originalBounds := by
  induction ops with
  | nil => exact fun m _ _ hi => ⟨hi, rfl⟩
  | cons op rest ih =>
    intro m how hoh hi
    have horig := applyOp_origBounds m op
    have step := ih (applyOp m op) (by rw [horig]; exact how)
      (by rw [horig]; exact hoh) (applyOp_invExtent how hoh hi op)
    refine ⟨step.1, ?_⟩
    show (List.foldl applyOp m (op :: rest)).originalBounds = m.originalBounds
    rw [List.foldl_cons]
    have h2 := step.2
    unfold applyOps at h2
    rw [h2, horig]

/-- C10: starting from `viewBounds = originalBounds` with a non-degenerate
original extent, after every sequence of pan, zoom (with the issued
factors 1.2 and 1/1.2), reset, recenter and resize commands the viewport
satisfies `MaxX ≥ MinX`, `MaxY ≥ MinY`, its width never exceeds the
original width and its height never exceeds the original height. -/
theorem viewport_extent_invariant (m : Model) (ops : List Op)
    (how : 0 < boxW m.originalBounds) (hoh : 0 < boxH m.originalBounds)
    (hstart : m.viewBounds = m.originalBounds) :
    invExtent (applyOps m ops) ∧
      (applyOps m ops).originalBounds = m.originalBounds :=
  applyOps_invExtent ops m how hoh
    (by unfold invExtent; rw [hstart]; exact ⟨how.le, le_refl _, hoh.le, le_refl _⟩)

/-- Witness for C10: a pan, a zoom-out, a recenter, a zoom-in and a reset
starting from the full scenario extent. -/
theorem viewport_extent_invariant_witness :
    (0 < boxW (emptyModel scenBox).originalBounds ∧
      0 < boxH (emptyModel scenBox).originalBounds ∧
      (emptyModel scenBox).viewBounds = (emptyModel scenBox).originalBounds) ∧
    (invExtent (applyOps (emptyModel scenBox)
        [Op.panUp, Op.zoomOut, Op.recenter 1 2, Op.zoomIn, Op.reset]) ∧
      (applyOps (emptyModel scenBox)
        [Op.panUp, Op.zoomOut, Op.recenter 1 2, Op.zoomIn, Op.reset]).originalBounds
        = (emptyModel scenBox).originalBounds) :=
  ⟨⟨by norm_num [emptyModel, scenBox, boxW], by norm_num [emptyModel, scenBox, boxH], rfl⟩,
   viewport_extent_invariant (emptyModel scenBox)
     [Op.panUp, Op.zoomOut, Op.recenter 1 2, Op.zoomIn, Op.reset]
     (by norm_num [emptyModel, scenBox, boxW])
     (by norm_num [emptyModel, scenBox, boxH]) rfl⟩

/-! ### C2: the zoom-out clamp -/

/-- When the scaled extent would exceed the original extent on either
axis, `zoom` resets the view to the original bounds. -/
theorem zoom_clamp (m : Model) (f : ℚ)
    (h : boxW m.viewBounds * f > boxW m.originalBounds ∨
      boxH m.viewBounds * f > boxH m.originalBounds) :
    (zoom m f).viewBounds = m.originalBounds := by
  simp only [zoom]
  rw [if_pos h]

/-- Unfolding the zoom iteration from the back. -/
theorem zoomIter_succ' (f : ℚ) (n : ℕ) (m : Model) :
    zoomIter f (n + 1) m = zoom (zoomIter f n m) f := by
  induction n generalizing m with
  | zero => rfl
  | succ n ih =>
    show zoomIter f (n + 1) (zoom m f) = _
    rw [ih]
    rfl

/-- The zoom iteration never changes the original bounds. -/
theorem zoomIter_orig (f : ℚ) (n : ℕ) (m : Model) :
    (zoomIter f n m).originalBounds = m.originalBounds := by
  induction n generalizing m with
  | zero => rfl
  | succ n ih =>
    show (zoomIter f n (zoom m f)).originalBounds = _
    rw [ih, zoom_orig]

/-- Zooming out at the full extent clamps back to the full extent. -/
theorem zoom_at_orig (s : Model) (f : ℚ) (hf : 1 < f)
    (how : 0 < boxW s.originalBounds) (hv : s.viewBounds = s.originalBounds) :
    (zoom s f).viewBounds = s.originalBounds := by
  apply zoom_clamp
  left
  rw [hv]
  exact lt_mul_of_one_lt_right how hf

/-- The zoom iteration either has already clamped to the original bounds
or has scaled both extents geometrically. -/
theorem zoomIter_widths (m : Model) (f : ℚ) (hf : 1 < f)
    (how : 0 < boxW m.originalBounds) :
    ∀ n, (zoomIter f n m).viewBounds = m.originalBounds ∨
      (boxW (zoomIter f n m).viewBounds = boxW m.viewBounds * f ^ n ∧
        boxH (zoomIter f n m).viewBounds = boxH m.viewBounds * f ^ n) := by
  intro n
  induction n with
  | zero => right; constructor <;> simp [zoomIter]
  | succ n ih =>
    rw [zoomIter_succ']
    rcases ih with hv | ⟨hw, hh⟩
    · left
      rw [zoom_at_orig (zoomIter f n m) f hf (by rw [zoomIter_orig]; exact how)
          (by rw [zoomIter_orig]; exact hv), zoomIter_orig]
    · rcases zoom_cases (zoomIter f n m) f with hcl | ⟨hw', hh', _, _⟩
      · left; rw [hcl, zoomIter_orig]
      · right
        constructor
        · rw [hw', hw]; ring
        · rw [hh', hh]; ring

/-- Once the iteration reaches the original bounds it stays there. -/
theorem zoomIter_absorb (m : Model) (f : ℚ) (hf : 1 < f)
    (how : 0 < boxW m.originalBounds) (n : ℕ)
    (h : (zoomIter f n m).viewBounds = m.originalBounds) :
    ∀ k, (zoomIter f (n + k) m).viewBounds = m.originalBounds := by
  intro k
  induction k with
  | zero => exact h
  | succ k ih =>
    show (zoomIter f (n + k + 1) m).viewBounds = _
    rw [zoomIter_succ',
      zoom_at_orig (zoomIter f (n + k) m) f hf
        (by rw [zoomIter_orig]; exact how) (by rw [zoomIter_orig]; exact ih),
      zoomIter_orig]

/-- A zoom with the issued factor 1.2 fixes a view collapsed to the
point `(3,3)` over the `(0,0)–(10,10)` original extent. -/
theorem zoom_point_fixed (m' : Model) (hv : m'.viewBounds = (⟨3, 3, 3, 3⟩ : Box))
    (ho : m'.originalBounds = (⟨0, 0, 10, 10⟩ : Box)) :
    (zoom m' zoomFactor).viewBounds = (⟨3, 3, 3, 3⟩ : Box) := by
  have hguard : ¬(boxW m'.viewBounds * zoomFactor > boxW m'.originalBounds ∨
      boxH m'.viewBounds * zoomFactor > boxH m'.originalBounds) := by
    rw [hv, ho]
    norm_num [boxW, boxH, zoomFactor]
  simp only [zoom]
  rw [if_neg hguard, hv]
  show Box.mk _ _ _ _ = _
  simp only [Box.mk.injEq]
  norm_num [boxW, boxH, zoomFactor]

/-- The zoom iteration fixes the collapsed view of `zoom_point_fixed`. -/
theorem zoomIter_point (n : ℕ) :
    ∀ m' : Model, m'.viewBounds = (⟨3, 3, 3, 3⟩ : Box) →
      m'.originalBounds = (⟨0, 0, 10, 10⟩ : Box) →
      (zoomIter zoomFactor n m').viewBounds = (⟨3, 3, 3, 3⟩ : Box) := by
  induction n with
  | zero => exact fun m' hv _ => hv
  | succ n ih =>
    intro m' hv ho
    show (zoomIter zoomFactor n (zoom m' zoomFactor)).viewBounds = _
    exact ih _ (zoom_point_fixed m' hv ho) (by rw [zoom_orig]; exact ho)

/-- C2 counterexample: from a viewport collapsed to a single point (zero
width and height) inside a non-degenerate original extent, repeated
zoom-out with the issued factor 1.2 never reaches `originalBounds`: the
scaled extent `0 × 1.2 = 0` never exceeds the original, so the clamp
never fires and the view stays a point.  This refutes "for every starting
viewport, repeatedly applying Zoom with factor > 1 converges to exactly
originalBounds". -/
theorem zoom_convergence_cex :
    (1 : ℚ) < zoomFactor ∧ boxW pointModel.viewBounds = 0 ∧
    0 < boxW pointModel.originalBounds ∧
    ¬ convergesToOrig pointModel zoomFactor := by
  refine ⟨by norm_num [zoomFactor], by norm_num [pointModel, emptyModel, boxW],
    by norm_num [pointModel, emptyModel, boxW], ?_⟩
  rintro ⟨n, hn⟩
  rw [zoomIter_point n pointModel rfl rfl] at hn
  have h3 : (3 : ℚ) = 0 := congrArg Box.MinX hn
  norm_num at h3

/-- C2 amended: (i) whenever the scaled width or height exceeds the
original extent, `zoom` yields exactly `originalBounds`; (ii) from any
viewport with positive width or height (inside a non-degenerate original
extent), repeated zoom-out with a factor `> 1` reaches exactly
`originalBounds` and stays there; (iii) a further zoom-out applied at
`originalBounds` leaves the view unchanged. -/
theorem zoom_clamp_convergence (m : Model) (f : ℚ) (hf : 1 < f)
    (how : 0 < boxW m.originalBounds) (hoh : 0 < boxH m.originalBounds)
    (hpos : 0 < boxW m.viewBounds ∨ 0 < boxH m.viewBounds) :
    (∀ f' : ℚ, (boxW m.viewBounds * f' > boxW m.originalBounds ∨
        boxH m.viewBounds * f' > boxH m.originalBounds) →
      (zoom m f').viewBounds = m.originalBounds) ∧
    (∃ n, ∀ k, (zoomIter f (n + k) m).viewBounds = m.originalBounds) ∧
    (m.viewBounds = m.originalBounds →
      (zoom m f).viewBounds = m.viewBounds) := by
  have hf0 : (0 : ℚ) < f := lt_trans zero_lt_one hf
  refine ⟨fun f' h => zoom_clamp m f' h, ?_,
    fun hv => by rw [zoom_at_orig m f hf how hv, hv]⟩
  have key : ∃ N, (zoomIter f (N + 1) m).viewBounds = m.originalBounds := by
    rcases hpos with hw0 | hh0
    · obtain ⟨N, hN⟩ :=
        pow_unbounded_of_one_lt (boxW m.originalBounds / boxW m.viewBounds) hf
      have hgt : boxW m.originalBounds < boxW m.viewBounds * f ^ N := by
        rw [div_lt_iff hw0] at hN
        rw [mul_comm]
        exact hN
      refine ⟨N, ?_⟩
      rcases zoomIter_widths m f hf how N with hv | ⟨hw, _⟩
      · exact zoomIter_absorb m f hf how N hv 1
      · rw [zoomIter_succ']
        have hguard : boxW (zoomIter f N m).viewBounds * f >
            boxW (zoomIter f N m).originalBounds ∨
            boxH (zoomIter f N m).viewBounds * f >
            boxH (zoomIter f N m).originalBounds := by
          left
          rw [hw, zoomIter_orig]
          calc boxW m.originalBounds < boxW m.viewBounds * f ^ N := hgt
            _ ≤ boxW m.viewBounds * f ^ N * f :=
              le_mul_of_one_le_right (mul_pos hw0 (pow_pos hf0 N)).le hf.le
        rw [zoom_clamp _ f hguard, zoomIter_orig]
    · obtain ⟨N, hN⟩ :=
        pow_unbounded_of_one_lt (boxH m.originalBounds / boxH m.viewBounds) hf
      have hgt : boxH m.originalBounds < boxH m.viewBounds * f ^ N := by
        rw [div_lt_iff hh0] at hN
        rw [mul_comm]
        exact hN
      refine ⟨N, ?_⟩
      rcases zoomIter_widths m f hf how N with hv | ⟨_, hh⟩
      · exact zoomIter_absorb m f hf how N hv 1
      · rw [zoomIter_succ']
        have hguard : boxW (zoomIter f N m).viewBounds * f >
            boxW (zoomIter f N m).originalBounds ∨
            boxH (zoomIter f N m).viewBounds * f >
            boxH (zoomIter f N m).originalBounds := by
          right
          rw [hh, zoomIter_orig]
          calc boxH m.originalBounds < boxH m.viewBounds * f ^ N := hgt
            _ ≤ boxH m.viewBounds * f ^ N * f :=
              le_mul_of_one_le_right (mul_pos hh0 (pow_pos hf0 N)).le hf.le
        rw [zoom_clamp _ f hguard, zoomIter_orig]
  obtain ⟨N, hN⟩ := key
  exact ⟨N + 1, zoomIter_absorb m f hf how (N + 1) hN⟩

/-- Witness for C2's amended theorem starting from a 1×1 view inside the
scenario extent, zooming out with the issued factor 1.2. -/
theorem zoom_clamp_convergence_witness :
    ((1 : ℚ) < zoomFactor ∧ 0 < boxW smallViewModel.originalBounds ∧
      0 < boxH smallViewModel.originalBounds ∧
      0 < boxW smallViewModel.viewBounds) ∧
    ((∀ f' : ℚ, (boxW smallViewModel.viewBounds * f' >
          boxW smallViewModel.originalBounds ∨
        boxH smallViewModel.viewBounds * f' >
          boxH smallViewModel.originalBounds) →
      (zoom smallViewModel f').viewBounds = smallViewModel.originalBounds) ∧
    (∃ n, ∀ k, (zoomIter zoomFactor (n + k) smallViewModel).viewBounds
      = smallViewModel.originalBounds) ∧
    (smallViewModel.viewBounds = smallViewModel.originalBounds →
      (zoom smallViewModel zoomFactor).viewBounds
        = smallViewModel.viewBounds)) :=
  ⟨⟨by norm_num [zoomFactor],
    by norm_num [smallViewModel, emptyModel, scenBox, boxW],
    by norm_num [smallViewModel, emptyModel, scenBox, boxH],
    by norm_num [smallViewModel, emptyModel, boxW]⟩,
   zoom_clamp_convergence smallViewModel zoomFactor (by norm_num [zoomFactor])
     (by norm_num [smallViewModel, emptyModel, scenBox, boxW])
     (by norm_num [smallViewModel, emptyModel, scenBox, boxH])
     (Or.inl (by norm_num [smallViewModel, emptyModel, boxW]))⟩

/-! ### C6: labels never overwrite non-blank cells -/

/-- Writing with `setCell` leaves every other cell unchanged. -/
theorem getCell_setCell_ne (g : Grid) (r c : ℕ) (v : Cell) (r' c' : ℕ)
    (h : r' ≠ r ∨ c' ≠ c) :
    getCell (setCell g r c v) r' c' = getCell g r' c' := by
  induction g generalizing r r' with
  | nil => rfl
  | cons row rest ih =>
    cases r with
    | zero =>
      cases r' with
      | zero =>
        rcases h with h | h
        · exact absurd rfl h
        · show (row.set c v).getD c' Cell.empty = row.getD c' Cell.empty
          rw [List.getD_eq_getElem?_getD, List.getD_eq_getElem?_getD,
            List.getElem?_set_ne (Ne.symm h)]
      | succ r' => rfl
    | succ r =>
      cases r' with
      | zero => rfl
      | succ r' =>
        show getCell (setCell rest r c v) r' c' = getCell rest r' c'
        apply ih
        rcases h with h | h
        · left; exact fun e => h (by rw [e])
        · right; exact h

/-- The per-character label loop only writes into blank cells, so a
non-blank cell is left exactly as it was. -/
theorem labelLoop_preserve (W yi r c : ℕ) :
    ∀ (cs : List Char) (g : Grid) (xi : ℕ), getCell g r c ≠ Cell.blank →
      getCell (labelLoop W yi g xi cs) r c = getCell g r c := by
  intro cs
  induction cs with
  | nil => intro g xi _; rfl
  | cons ch rest ih =>
    intro g xi h
    simp only [labelLoop]
    split_ifs with hW hblank
    · rfl
    · have hne : r ≠ yi ∨ c ≠ xi := by
        by_contra hcon
        push_neg at hcon
        rw [hcon.1, hcon.2] at h
        exact h hblank
      have hkeep : getCell (setCell g yi xi (Cell.label ch)) r c = getCell g r c :=
        getCell_setCell_ne g yi xi _ r c hne
      rw [ih (setCell g yi xi (Cell.label ch)) (xi + 1)
        (by rw [hkeep]; exact h), hkeep]
    · exact ih g (xi + 1) h

/-- Drawing with `drawLabel` preserves non-blank cells. -/
theorem drawLabel_preserve (W H : ℕ) (g : Grid) (x y : ℕ) (cs : List Char)
    (r c : ℕ) (h : getCell g r c ≠ Cell.blank) :
    getCell (drawLabel W H g x y cs) r c = getCell g r c := by
  unfold drawLabel
  split_ifs with hy
  · rfl
  · exact labelLoop_preserve W (y + 1) r c cs g x h

/-- Writing with `setCell` leaves every other row unchanged. -/
theorem setCell_row_ne (g : Grid) (r c : ℕ) (v : Cell) (r' : ℕ) (h : r' ≠ r) :
    (setCell g r c v).getD r' [] = g.getD r' [] := by
  induction g generalizing r r' with
  | nil => rfl
  | cons row rest ih =>
    cases r with
    | zero =>
      cases r' with
      | zero => exact absurd rfl h
      | succ r' => rfl
    | succ r =>
      cases r' with
      | zero => rfl
      | succ r' =>
        show (setCell rest r c v).getD r' [] = rest.getD r' []
        exact ih r r' fun e => h (by rw [e])

/-- The label loop only ever writes into its own row. -/
theorem labelLoop_row_ne (W yi r' : ℕ) (h : r' ≠ yi) :
    ∀ (cs : List Char) (g : Grid) (xi : ℕ),
      (labelLoop W yi g xi cs).getD r' [] = g.getD r' [] := by
  intro cs
  induction cs with
  | nil => intro g xi; rfl
  | cons ch rest ih =>
    intro g xi
    simp only [labelLoop]
    split_ifs with hW hblank
    · rfl
    · rw [ih, setCell_row_ne _ _ _ _ _ h]
    · exact ih g (xi + 1)

/-- The label pass preserves every cell that is not blank before it runs. -/
theorem labelPass_preserve (W H : ℕ) (acs : List Aircraft) (r c : ℕ) :
    ∀ (ps : List (String × ℕ × ℕ)) (g : Grid),
      getCell g r c ≠ Cell.blank →
      getCell (labelPass W H acs g ps) r c = getCell g r c := by
  intro ps
  induction ps with
  | nil => intro g _; rfl
  | cons p rest ih =>
    intro g h
    obtain ⟨icao, x, y⟩ := p
    simp only [labelPass]
    cases hl : lookupAircraft acs icao with
    | none =>
      simp only [hl]
      exact ih g h
    | some ac =>
      simp only [hl]
      split_ifs with hcs
      · exact ih g h
      · have hkeep := drawLabel_preserve W H g x y ac.Callsign.toList r c h
        rw [ih (drawLabel W H g x y ac.Callsign.toList)
          (by rw [hkeep]; exact h), hkeep]

/-- C6: a label character is only ever written into a blank cell — after
the label pass every cell that previously held a non-blank glyph (map dot,
airport star or aircraft icon) is unchanged; a whole label is skipped when
the row below the icon is off-screen; and label writing never touches any
row other than the one below its icon (in particular it cannot wrap
around to another row). -/
theorem label_non_overwrite (W H : ℕ) (acs : List Aircraft)
    (ps : List (String × ℕ × ℕ)) (g : Grid) (r c : ℕ)
    (h : getCell g r c ≠ Cell.blank) :
    getCell (labelPass W H acs g ps) r c = getCell g r c ∧
    (∀ (g' : Grid) (x y : ℕ) (cs : List Char), H ≤ y + 1 →
      drawLabel W H g' x y cs = g') ∧
    (∀ (g' : Grid) (x y : ℕ) (cs : List Char) (r' : ℕ), r' ≠ y + 1 →
      (drawLabel W H g' x y cs).getD r' [] = g'.getD r' []) := by
  refine ⟨labelPass_preserve W H acs r c ps g h, ?_, ?_⟩
  · intro g' x y cs hy
    unfold drawLabel
    rw [if_pos hy]
  · intro g' x y cs r' hr
    unfold drawLabel
    split_ifs with hy
    · rfl
    · exact labelLoop_row_ne W (y + 1) r' hr cs g' x

/-- Witness for C6: a 2×2 grid holding one map dot, one recorded icon
position, the label pass of aircraft `acA`. -/
theorem label_non_overwrite_witness :
    getCell [[Cell.dot, Cell.blank], [Cell.blank, Cell.blank]] 0 0 ≠ Cell.blank ∧
    getCell (labelPass 2 2 [acA]
        [[Cell.dot, Cell.blank], [Cell.blank, Cell.blank]] [("AAA", 0, 0)]) 0 0
      = getCell [[Cell.dot, Cell.blank], [Cell.blank, Cell.blank]] 0 0 :=
  ⟨by with_unfolding_all decide,
   (label_non_overwrite 2 2 [acA] [("AAA", 0, 0)]
     [[Cell.dot, Cell.blank], [Cell.blank, Cell.blank]] 0 0
     (by with_unfolding_all decide)).1⟩

/-! ### C7: determinism with respect to aircraft iteration order -/

/-- Writing the same glyph at two cells commutes. -/
theorem setCell_comm_same (v : Cell) :
    ∀ (g : Grid) (r1 c1 r2 c2 : ℕ),
      setCell (setCell g r1 c1 v) r2 c2 v = setCell (setCell g r2 c2 v) r1 c1 v := by
  intro g
  induction g with
  | nil => intro r1 c1 r2 c2; rfl
  | cons row rest ih =>
    intro r1 c1 r2 c2
    cases r1 with
    | zero =>
      cases r2 with
      | zero =>
        show ((row.set c1 v).set c2 v) :: rest = ((row.set c2 v).set c1 v) :: rest
        by_cases hc : c1 = c2
        · rw [hc]
        · rw [List.set_comm _ _ _ hc]
      | succ r2 => rfl
    | succ r1 =>
      cases r2 with
      | zero => rfl
      | succ r2 =>
        show row :: setCell (setCell rest r1 c1 v) r2 c2 v
            = row :: setCell (setCell rest r2 c2 v) r1 c1 v
        rw [ih r1 c1 r2 c2]

/-- The passes `iconPass` and `iconPassBG` agree on the box and grid components (the
box/grid updates of the icon pass never read the recorded positions). -/
theorem iconPass_eq_BG (W H : ℕ) :
    ∀ (A : List Aircraft) (b : Box) (g : Grid)
      (ps : List (String × ℕ × ℕ)),
      (iconPass W H (b, g, ps) A).1 = (iconPassBG W H (b, g) A).1 ∧
      (iconPass W H (b, g, ps) A).2.1 = (iconPassBG W H (b, g) A).2 := by
  intro A
  induction A with
  | nil => intro b g ps; exact ⟨rfl, rfl⟩
  | cons ac rest ih =>
    intro b g ps
    simp only [iconPass, iconPassBG]
    split_ifs with hfix hin
    · exact ih b g ps
    · exact ih _ _ _
    · exact ih _ _ _

/-- The box-and-grid icon pass on the empty list. -/
theorem iconPassBG_nil (W H : ℕ) (s : Box × Grid) :
    iconPassBG W H s [] = s := rfl

/-- One unfolding step of the box-and-grid icon pass, with the projection
spelled out through `projCol`/`projRow`. -/
theorem iconPassBG_cons (W H : ℕ) (ac : Aircraft) (rest : List Aircraft)
    (b : Box) (g : Grid) :
    iconPassBG W H (b, g) (ac :: rest) =
      if ac.Lat = 0 ∧ ac.Lon = 0 then iconPassBG W H (b, g) rest
      else if 0 ≤ projCol b ac.Lon W ∧ projCol b ac.Lon W < (W : ℤ) ∧
          0 ≤ projRow b ac.Lat H ∧ projRow b ac.Lat H < (H : ℤ) then
        iconPassBG W H (nudge b,
          setCell g (projRow b ac.Lat H).toNat (projCol b ac.Lon W).toNat
            Cell.plane) rest
      else iconPassBG W H (nudge b, g) rest := by
  simp only [iconPassBG, projectPt_eq]
  rw [apply_ite (fun s => iconPassBG W H s rest)]

/-- Starting the box-and-grid icon pass from a pre-nudged box gives the
same grid and a box that is the nudge of the un-nudged run's box. -/
theorem iconPassBG_nudge (W H : ℕ) :
    ∀ (A : List Aircraft) (b : Box) (g : Grid),
      iconPassBG W H (nudge b, g) A
        = (nudge (iconPassBG W H (b, g) A).1, (iconPassBG W H (b, g) A).2) := by
  intro A
  induction A with
  | nil => intro b g; rfl
  | cons ac rest ih =>
    intro b g
    rw [iconPassBG_cons, iconPassBG_cons]
    simp only [projCol_nudge, projRow_nudge, nudge_idem]
    split_ifs with hfix hin
    · exact ih b g
    · rw [ih]
      simp [nudge_idem]
    · rw [ih]
      simp [nudge_idem]

/-- Splitting the box-and-grid icon pass along a list append. -/
theorem iconPassBG_append (W H : ℕ) :
    ∀ (A1 A2 : List Aircraft) (b : Box) (g : Grid),
      iconPassBG W H (b, g) (A1 ++ A2)
        = iconPassBG W H (iconPassBG W H (b, g) A1) A2 := by
  intro A1
  induction A1 with
  | nil => intro A2 b g; rfl
  | cons ac rest ih =>
    intro A2 b g
    simp only [List.cons_append, iconPassBG]
    split_ifs with hfix hin
    · exact ih A2 b g
    · exact ih A2 _ _
    · exact ih A2 _ _

/-- Two adjacent aircraft can be processed in either order: the box ends
up `nudge`-saturated either way, the two icon glyphs are identical, and
same-glyph writes commute. -/
theorem iconPassBG_pair_comm (W H : ℕ) (x y : Aircraft) (b : Box) (g : Grid) :
    iconPassBG W H (b, g) [x, y] = iconPassBG W H (b, g) [y, x] := by
  simp only [iconPassBG_cons, iconPassBG_nil, projCol_nudge, projRow_nudge,
    nudge_idem]
  split_ifs <;> first
    | rfl
    | rw [setCell_comm_same]

/-- The box-and-grid icon pass is invariant under permutations of the
aircraft list. -/
theorem iconPassBG_perm (W H : ℕ) {A1 A2 : List Aircraft} (h : A1.Perm A2) :
    ∀ (b : Box) (g : Grid),
      iconPassBG W H (b, g) A1 = iconPassBG W H (b, g) A2 := by
  induction h with
  | nil => intro b g; rfl
  | cons ac h ih =>
    intro b g
    simp only [iconPassBG]
    split_ifs <;> apply ih
  | swap x y l =>
    intro b g
    show iconPassBG W H (b, g) ([y, x] ++ l) = iconPassBG W H (b, g) ([x, y] ++ l)
    rw [iconPassBG_append, iconPassBG_append, iconPassBG_pair_comm W H y x b g]
  | trans h1 h2 ih1 ih2 =>
    intro b g
    rw [ih1, ih2]

/-- C7 counterexample: two enumeration orders of the same two-aircraft
snapshot produce different composited output — the labels `AB` and `CD`
compete for the cell below and between the two icons, and the label pass
gives that cell to whichever aircraft is enumerated first. -/
theorem compositor_order_cex :
    [acA, acB].Perm [acB, acA] ∧
    (renderMapViewport (overlapModel [acA, acB]) 10 10).2
      ≠ (renderMapViewport (overlapModel [acB, acA]) 10 10).2 := by
  constructor
  · exact List.Perm.swap acB acA []
  · with_unfolding_all decide

/-- C7 amended: the icon layer is deterministic with respect to the
iteration order — any two enumerations of the same snapshot leave the
icon pass with the same view bounds and the same grid (icons are a single
shared glyph, so their writes commute).  Full composited output is only
order-independent in the absence of label collisions: when two labels
compete for a cell the first-enumerated aircraft wins
(`compositor_order_cex`). -/
theorem icon_layer_order_independent (W H : ℕ) (b : Box) (g : Grid)
    (ps : List (String × ℕ × ℕ)) (A1 A2 : List Aircraft) (h : A1.Perm A2) :
    (iconPass W H (b, g, ps) A1).1 = (iconPass W H (b, g, ps) A2).1 ∧
    (iconPass W H (b, g, ps) A1).2.1 = (iconPass W H (b, g, ps) A2).2.1 := by
  have hBG := iconPassBG_perm W H h b g
  constructor
  · rw [(iconPass_eq_BG W H A1 b g ps).1, (iconPass_eq_BG W H A2 b g ps).1, hBG]
  · rw [(iconPass_eq_BG W H A1 b g ps).2, (iconPass_eq_BG W H A2 b g ps).2, hBG]

/-- Witness for C7's amended theorem on the two-aircraft snapshot. -/
theorem icon_layer_order_independent_witness :
    [acA, acB].Perm [acB, acA] ∧
    ((iconPass 10 10 (scenBox, blankGrid 10 10, []) [acA, acB]).1
        = (iconPass 10 10 (scenBox, blankGrid 10 10, []) [acB, acA]).1 ∧
      (iconPass 10 10 (scenBox, blankGrid 10 10, []) [acA, acB]).2.1
        = (iconPass 10 10 (scenBox, blankGrid 10 10, []) [acB, acA]).2.1) :=
  ⟨List.Perm.swap acB acA [],
   icon_layer_order_independent 10 10 scenBox (blankGrid 10 10) [] [acA, acB]
     [acB, acA] (List.Perm.swap acB acA [])⟩

/-! ### C8: renders never corrupt the cached static grid -/

/-- The copy `copyGrid` is the identity (as a value) on rectangular grids: with
equal-length rows every destination row is `src.take w = src` (and with
zero-width rows every row is already `[]`). -/
theorem copyGrid_rect (g : Grid)
    (hrect : ∀ row ∈ g, row.length = (g.headD []).length) :
    copyGrid (some g) = some g := by
  cases g with
  | nil => rfl
  | cons row rest =>
    simp only [copyGrid]
    by_cases hw : row.length = 0
    · rw [if_pos hw]
      have hall : ∀ r ∈ row :: rest, r = ([] : List Cell) := by
        intro r hr
        have := hrect r hr
        rw [List.headD_cons, hw] at this
        exact List.length_eq_zero.mp this
      exact congrArg some (List.eq_replicate_length.mpr hall).symm
    · rw [if_neg hw]
      refine congrArg some ?_
      have hcopy : ∀ r ∈ row :: rest, copyRow row.length r = r := by
        intro r hr
        have hlen : r.length = row.length := by
          rw [hrect r hr, List.headD_cons]
        unfold copyRow
        rw [← hlen, List.take_left]
      calc (row :: rest).map (copyRow row.length)
          = (row :: rest).map id := List.map_congr_left hcopy
        _ = row :: rest := List.map_id _

/-- C8: the cache a render leaves behind is exactly the freshly built
static grid (on a rebuild) or the previous cache — in particular it does
not depend on the aircraft table, so no icon or label write ever reaches
the cached static layer; and the per-render working grid is an
independent value-equal copy of the cache (`copyGrid` restores the cache
exactly on rectangular grids). -/
theorem render_cache_independent (m : Model) (w h : ℤ) (A : List Aircraft)
    (g : Grid) (hrect : ∀ row ∈ g, row.length = (g.headD []).length) :
    ((renderMapViewport { m with aircraft := A } w h).1).cachedStaticGrid
      = ((renderMapViewport m w h).1).cachedStaticGrid ∧
    ((renderMapViewport m w h).1).cachedStaticGrid
      = some (if rebuildCond m (clampDim w) (clampDim h)
          then (buildStatic m.viewBounds m.mapPolygons m.airportPoints
            (clampDim w) (clampDim h)).2
          else m.cachedStaticGrid.getD []) ∧
    copyGrid (some g) = some g :=
  ⟨rfl, rfl, copyGrid_rect g hrect⟩

/-- Witness for C8 at a 1×1 grid holding a map dot. -/
theorem render_cache_independent_witness :
    (∀ row ∈ [[Cell.dot]], row.length = (([[Cell.dot]] : Grid).headD []).length) ∧
    (((renderMapViewport { emptyModel scenBox with aircraft := [acA] } 2 2).1).cachedStaticGrid
        = ((renderMapViewport (emptyModel scenBox) 2 2).1).cachedStaticGrid ∧
      ((renderMapViewport (emptyModel scenBox) 2 2).1).cachedStaticGrid
        = some (if rebuildCond (emptyModel scenBox) (clampDim 2) (clampDim 2)
            then (buildStatic (emptyModel scenBox).viewBounds
              (emptyModel scenBox).mapPolygons (emptyModel scenBox).airportPoints
              (clampDim 2) (clampDim 2)).2
            else (emptyModel scenBox).cachedStaticGrid.getD []) ∧
      copyGrid (some [[Cell.dot]]) = some [[Cell.dot]]) :=
  ⟨by with_unfolding_all decide,
   render_cache_independent (emptyModel scenBox) 2 2 [acA] [[Cell.dot]]
     (by with_unfolding_all decide)⟩

/-! ### C1: cache coherence -/

/-- Writing with `setCell` never changes the number of rows. -/
theorem setCell_length (g : Grid) (r c : ℕ) (v : Cell) :
    (setCell g r c v).length = g.length := by
  induction g generalizing r with
  | nil => rfl
  | cons row rest ih =>
    cases r with
    | zero => rfl
    | succ r => exact congrArg Nat.succ (ih r)

/-- Writing with `setCell` never changes the length of any row. -/
theorem setCell_row_length (g : Grid) (r c : ℕ) (v : Cell) (i : ℕ) :
    ((setCell g r c v).getD i []).length = (g.getD i []).length := by
  induction g generalizing r i with
  | nil => rfl
  | cons row rest ih =>
    cases r with
    | zero =>
      cases i with
      | zero =>
        show (row.set c v).length = row.length
        exact List.length_set row c v
      | succ i => rfl
    | succ r =>
      cases i with
      | zero => rfl
      | succ i =>
        show ((setCell rest r c v).getD i []).length = (rest.getD i []).length
        exact ih r i

/-- The vertex-drawing fold preserves the grid dimensions. -/
theorem drawPts_dims (W H : ℕ) (v : Cell) :
    ∀ (ps : List Point) (b : Box) (g : Grid),
      (drawPts W H v (b, g) ps).2.length = g.length ∧
      ∀ i, (((drawPts W H v (b, g) ps).2).getD i []).length
        = (g.getD i []).length := by
  intro ps
  induction ps with
  | nil => intro b g; exact ⟨rfl, fun i => rfl⟩
  | cons p rest ih =>
    intro b g
    simp only [drawPts]
    split_ifs with hin
    · have step := ih (projectPt b p.X p.Y W H).1
        (setCell g (projectPt b p.X p.Y W H).2.2.toNat
          (projectPt b p.X p.Y W H).2.1.toNat v)
      exact ⟨by rw [step.1, setCell_length],
        fun i => by rw [step.2 i, setCell_row_length]⟩
    · exact ih (projectPt b p.X p.Y W H).1 g

/-- The polygon-drawing fold preserves the grid dimensions. -/
theorem drawPolygons_dims (W H : ℕ) :
    ∀ (polys : List Polygon) (b : Box) (g : Grid),
      (drawPolygons W H (b, g) polys).2.length = g.length ∧
      ∀ i, (((drawPolygons W H (b, g) polys).2).getD i []).length
        = (g.getD i []).length := by
  intro polys
  induction polys with
  | nil => intro b g; exact ⟨rfl, fun i => rfl⟩
  | cons poly rest ih =>
    intro b g
    simp only [drawPolygons]
    split_ifs with hcull
    · exact ih b g
    · have hdp := drawPts_dims W H Cell.dot (stepPoints poly.Points) b g
      have step := ih (drawPts W H Cell.dot (b, g) (stepPoints poly.Points)).1
        (drawPts W H Cell.dot (b, g) (stepPoints poly.Points)).2
      refine ⟨?_, fun i => ?_⟩
      · calc (drawPolygons W H
              (drawPts W H Cell.dot (b, g) (stepPoints poly.Points)) rest).2.length
            = (drawPts W H Cell.dot (b, g) (stepPoints poly.Points)).2.length :=
              step.1
          _ = g.length := hdp.1
      · calc ((drawPolygons W H
              (drawPts W H Cell.dot (b, g) (stepPoints poly.Points)) rest).2.getD
                i []).length
            = ((drawPts W H Cell.dot (b, g) (stepPoints poly.Points)).2.getD
                i []).length := step.2 i
          _ = (g.getD i []).length := hdp.2 i

/-- Reading `headD` is `getD 0`. -/
theorem headD_eq_getD (l : Grid) : l.headD [] = l.getD 0 [] := by
  cases l <;> rfl

/-- The clamp produces a positive dimension. -/
theorem clampDim_pos (n : ℤ) : 0 < clampDim n := by
  unfold clampDim
  split_ifs with h
  · exact one_pos
  · omega

/-- The freshly built static grid has exactly the requested dimensions. -/
theorem buildStatic_dims (b : Box) (polys : List Polygon)
    (airports : List Point) (W H : ℕ) (hH : 0 < H) :
    (buildStatic b polys airports W H).2.length = H ∧
    ((buildStatic b polys airports W H).2.headD []).length = W := by
  unfold buildStatic
  have hblank : (blankGrid H W).length = H := List.length_replicate H _
  have hblank0 : ((blankGrid H W).getD 0 []).length = W := by
    obtain ⟨H', rfl⟩ := Nat.exists_eq_succ_of_ne_zero hH.ne.symm
    show (List.replicate W Cell.blank).length = W
    exact List.length_replicate W _
  have hpoly := drawPolygons_dims W H polys b (blankGrid H W)
  have hpt := drawPts_dims W H Cell.star airports
    (drawPolygons W H (b, blankGrid H W) polys).1
    (drawPolygons W H (b, blankGrid H W) polys).2
  constructor
  · calc (drawPts W H Cell.star
          (drawPolygons W H (b, blankGrid H W) polys) airports).2.length
        = (drawPolygons W H (b, blankGrid H W) polys).2.length := hpt.1
      _ = (blankGrid H W).length := hpoly.1
      _ = H := hblank
  · rw [headD_eq_getD]
    calc ((drawPts W H Cell.star
          (drawPolygons W H (b, blankGrid H W) polys) airports).2.getD 0 []).length
        = ((drawPolygons W H (b, blankGrid H W) polys).2.getD 0 []).length :=
          hpt.2 0
      _ = ((blankGrid H W).getD 0 []).length := hpoly.2 0
      _ = W := hblank0

/-- One unfolding step of the full icon pass, with the projection spelled
out through `projCol`/`projRow`. -/
theorem iconPass_cons (W H : ℕ) (ac : Aircraft) (rest : List Aircraft)
    (b : Box) (g : Grid) (ps : List (String × ℕ × ℕ)) :
    iconPass W H (b, g, ps) (ac :: rest) =
      if ac.Lat = 0 ∧ ac.Lon = 0 then iconPass W H (b, g, ps) rest
      else if 0 ≤ projCol b ac.Lon W ∧ projCol b ac.Lon W < (W : ℤ) ∧
          0 ≤ projRow b ac.Lat H ∧ projRow b ac.Lat H < (H : ℤ) then
        iconPass W H (nudge b,
          setCell g (projRow b ac.Lat H).toNat (projCol b ac.Lon W).toNat
            Cell.plane,
          ps ++ [(ac.ICAO, (projCol b ac.Lon W).toNat,
            (projRow b ac.Lat H).toNat)]) rest
      else iconPass W H (nudge b, g, ps) rest := by
  simp only [iconPass, projectPt_eq]
  rw [apply_ite (fun s => iconPass W H s rest)]

/-- The box left by the icon pass is the starting box or its nudge. -/
theorem iconPass_box_or (W H : ℕ) :
    ∀ (A : List Aircraft) (b : Box) (g : Grid) (ps : List (String × ℕ × ℕ)),
      (iconPass W H (b, g, ps) A).1 = b ∨
        (iconPass W H (b, g, ps) A).1 = nudge b := by
  intro A
  induction A with
  | nil => intro b g ps; left; rfl
  | cons ac rest ih =>
    intro b g ps
    rw [iconPass_cons]
    split_ifs with hfix hin
    · exact ih b g ps
    · rcases ih (nudge b) _ _ with h | h
      · right; exact h
      · right; rw [nudge_idem] at h; exact h
    · rcases ih (nudge b) g ps with h | h
      · right; exact h
      · right; rw [nudge_idem] at h; exact h

/-- Starting the icon pass from a pre-nudged box gives the same grid and
positions and a box that is the nudge of the un-nudged run's. -/
theorem iconPass_nudge (W H : ℕ) :
    ∀ (A : List Aircraft) (b : Box) (g : Grid) (ps : List (String × ℕ × ℕ)),
      iconPass W H (nudge b, g, ps) A
        = (nudge (iconPass W H (b, g, ps) A).1,
            (iconPass W H (b, g, ps) A).2) := by
  intro A
  induction A with
  | nil => intro b g ps; rfl
  | cons ac rest ih =>
    intro b g ps
    rw [iconPass_cons, iconPass_cons]
    simp only [projCol_nudge, projRow_nudge, nudge_idem]
    split_ifs with hfix hin
    · exact ih b g ps
    · rw [ih]
      simp [nudge_idem]
    · rw [ih]
      simp [nudge_idem]

/-- Restarting the icon pass from the box it produced (with the same
grid, positions and aircraft) reproduces the same result: the second run
projects through the already-nudged bounds. -/
theorem iconPass_restart (W H : ℕ) (A : List Aircraft) (b : Box) (g : Grid)
    (ps : List (String × ℕ × ℕ)) :
    iconPass W H ((iconPass W H (b, g, ps) A).1, g, ps) A
      = iconPass W H (b, g, ps) A := by
  rcases iconPass_box_or W H A b g ps with hbox | hbox
  · rw [hbox]
  · rw [hbox, iconPass_nudge, hbox, nudge_idem, ← hbox]

/-- The cache stored by a render. -/
theorem render_fst_cache (m : Model) (w h : ℤ) :
    (renderMapViewport m w h).1.cachedStaticGrid
      = some (if rebuildCond m (clampDim w) (clampDim h)
          then (buildStatic m.viewBounds m.mapPolygons m.airportPoints
            (clampDim w) (clampDim h)).2
          else m.cachedStaticGrid.getD []) := rfl

/-- The redraw flag left by a render. -/
theorem render_fst_needsRedraw (m : Model) (w h : ℤ) :
    (renderMapViewport m w h).1.needsRedraw
      = (if rebuildCond m (clampDim w) (clampDim h) then false
         else m.needsRedraw) := rfl

/-- Reading `headD` through `head?`. -/
theorem headD_head? (l : Grid) : (l.head?).getD [] = l.headD [] := by
  cases l <;> rfl

/-- A false invalidation test certifies a clean flag and a cache of the
requested dimensions. -/
theorem rebuildCond_false_elim {m : Model} {W H : ℕ}
    (h : rebuildCond m W H = false) :
    m.needsRedraw = false ∧ ∃ g, m.cachedStaticGrid = some g ∧
      g.length = H ∧ (g.headD []).length = W := by
  unfold rebuildCond at h
  rw [Bool.or_eq_false_iff] at h
  refine ⟨h.1, ?_⟩
  rcases hc : m.cachedStaticGrid with _ | g
  · simp only [hc] at h
    exact absurd h.2 (by simp)
  · simp only [hc] at h
    have h2 := h.2
    rw [Bool.or_eq_false_iff] at h2
    exact ⟨g, rfl, by simpa using h2.1, by simpa using h2.2⟩

/-- Immediately after any render the invalidation test is false: the flag
was cleared (or already clear) and the stored cache has the clamped
dimensions. -/
theorem rebuildCond_after_render (m : Model) (w h : ℤ) :
    rebuildCond ((renderMapViewport m w h).1) (clampDim w) (clampDim h)
      = false := by
  have hc := render_fst_cache m w h
  have hn := render_fst_needsRedraw m w h
  unfold rebuildCond
  rw [hc, hn]
  cases hrb : rebuildCond m (clampDim w) (clampDim h) with
  | false =>
    obtain ⟨hnr, g, hg, hlen, hwid⟩ := rebuildCond_false_elim hrb
    have hwid' : ((g.head?).getD ([] : List Cell)).length = clampDim w := by
      rw [headD_head?]; exact hwid
    simp [hg, hnr, hlen, hwid']
  | true =>
    have hd := buildStatic_dims m.viewBounds m.mapPolygons m.airportPoints
      (clampDim w) (clampDim h) (clampDim_pos h)
    have hd2 : (((buildStatic m.viewBounds m.mapPolygons m.airportPoints
        (clampDim w) (clampDim h)).2.head?).getD ([] : List Cell)).length
        = clampDim w := by
      rw [headD_head?]; exact hd.2
    simp [hd.1, hd2]

/-- Evaluating a render whose invalidation test is false: the cache and
flag are untouched, the passes run over a copy of the stored cache. -/
theorem render_of_false (m : Model) (w h : ℤ) (g : Grid)
    (hrb : rebuildCond m (clampDim w) (clampDim h) = false)
    (hg : m.cachedStaticGrid = some g) :
    renderMapViewport m w h =
      ({ m with viewBounds := (iconPass (clampDim w) (clampDim h)
            (m.viewBounds, copyOrBlank g (clampDim w) (clampDim h), [])
            m.aircraft).1 },
       labelPass (clampDim w) (clampDim h) m.aircraft
         (iconPass (clampDim w) (clampDim h)
           (m.viewBounds, copyOrBlank g (clampDim w) (clampDim h), [])
           m.aircraft).2.1
         (iconPass (clampDim w) (clampDim h)
           (m.viewBounds, copyOrBlank g (clampDim w) (clampDim h), [])
           m.aircraft).2.2) := by
  simp only [renderMapViewport, hrb, hg, Bool.false_eq_true, if_false,
    Option.getD_some]

/-- Evaluating a render whose invalidation test is true: the static layer
is rebuilt, stored, and the passes run over a copy of it. -/
theorem render_of_true (m : Model) (w h : ℤ)
    (hrb : rebuildCond m (clampDim w) (clampDim h) = true) :
    renderMapViewport m w h =
      ({ m with
          viewBounds := (iconPass (clampDim w) (clampDim h)
            ((buildStatic m.viewBounds m.mapPolygons m.airportPoints
                (clampDim w) (clampDim h)).1,
              copyOrBlank (buildStatic m.viewBounds m.mapPolygons
                m.airportPoints (clampDim w) (clampDim h)).2
                (clampDim w) (clampDim h),
              []) m.aircraft).1,
          cachedStaticGrid := some (buildStatic m.viewBounds m.mapPolygons
            m.airportPoints (clampDim w) (clampDim h)).2,
          needsRedraw := false },
       labelPass (clampDim w) (clampDim h) m.aircraft
         (iconPass (clampDim w) (clampDim h)
           ((buildStatic m.viewBounds m.mapPolygons m.airportPoints
               (clampDim w) (clampDim h)).1,
             copyOrBlank (buildStatic m.viewBounds m.mapPolygons
               m.airportPoints (clampDim w) (clampDim h)).2
               (clampDim w) (clampDim h),
             []) m.aircraft).2.1
         (iconPass (clampDim w) (clampDim h)
           ((buildStatic m.viewBounds m.mapPolygons m.airportPoints
               (clampDim w) (clampDim h)).1,
             copyOrBlank (buildStatic m.viewBounds m.mapPolygons
               m.airportPoints (clampDim w) (clampDim h)).2
               (clampDim w) (clampDim h),
             []) m.aircraft).2.2) := by
  simp only [renderMapViewport, hrb, if_true]

/-- A second render with the same dimensions and no intervening command
reproduces the same model and the same output. -/
theorem render_stable (m : Model) (w h : ℤ) :
    renderMapViewport ((renderMapViewport m w h).1) w h
      = renderMapViewport m w h := by
  cases hrb : rebuildCond m (clampDim w) (clampDim h) with
  | false =>
    obtain ⟨hnr, g, hg, hlen, hwid⟩ := rebuildCond_false_elim hrb
    have hrb2 := rebuildCond_after_render m w h
    rw [render_of_false m w h g hrb hg] at hrb2 ⊢
    dsimp only at hrb2
    rw [render_of_false _ w h g hrb2 hg]
    dsimp only
    rw [iconPass_restart]
  | true =>
    have hrb2 := rebuildCond_after_render m w h
    rw [render_of_true m w h hrb] at hrb2 ⊢
    dsimp only at hrb2
    rw [render_of_false _ w h
      (buildStatic m.viewBounds m.mapPolygons m.airportPoints
        (clampDim w) (clampDim h)).2 hrb2 rfl]
    dsimp only
    rw [iconPass_restart]

/-- Every dispatched command marks the view dirty. -/
theorem applyOp_needsRedraw (m : Model) (op : Op) :
    (applyOp m op).needsRedraw = true := by
  cases op <;> first
    | rfl
    | (simp only [applyOp, zoom]; split_ifs <;> rfl)

/-- A dirty flag forces the invalidation test. -/
theorem rebuildCond_of_needsRedraw {m : Model} (h : m.needsRedraw = true)
    (W H : ℕ) : rebuildCond m W H = true := by
  unfold rebuildCond
  rw [h]
  rfl

/-- C1: (i) a second render with no intervening command reproduces the
first render bit for bit (same model, same composited output, same static
cache) and its invalidation test is false, so no rebuild occurs; (ii)
after any pan, zoom, reset, recenter or resize command the next render's
invalidation test fires (the command set the dirty flag), and the render
after that one is clean again — exactly one rebuild per command. -/
theorem cache_coherence (m : Model) (w h : ℤ) :
    renderMapViewport ((renderMapViewport m w h).1) w h
      = renderMapViewport m w h ∧
    rebuildCond ((renderMapViewport m w h).1) (clampDim w) (clampDim h)
      = false ∧
    ∀ op : Op, (applyOp ((renderMapViewport m w h).1) op).needsRedraw = true ∧
      ∀ w' h' : ℤ,
        rebuildCond (applyOp ((renderMapViewport m w h).1) op)
          (clampDim w') (clampDim h') = true ∧
        rebuildCond ((renderMapViewport
            (applyOp ((renderMapViewport m w h).1) op) w' h').1)
          (clampDim w') (clampDim h') = false :=
  ⟨render_stable m w h, rebuildCond_after_render m w h, fun op =>
    ⟨applyOp_needsRedraw _ op, fun w' h' =>
      ⟨rebuildCond_of_needsRedraw (applyOp_needsRedraw _ op) _ _,
       rebuildCond_after_render _ w' h'⟩⟩⟩

end TermTrack
